import Mathlib

/-!
Shallow embedding of the client-side D-Bus proxy core of zbus
(`src/zbus/src/proxy.rs`) and proofs about its property cache, property
accessors, signal-stream filtering and handler (de)registration.

The embedding is parametric in the type `Val` of D-Bus values
(`zvariant::OwnedValue` in the source) and the type `H` of registered
property-changed handler closures.  The property cache
(`ProxyProperties::values: HashMap<String, PropertyValue>`) is modelled as a
function `String → Option (PropertyValue Val H)`; a slot map of handlers is
modelled by a list of key/handler pairs together with a fresh-key counter.
Asynchronous bus interactions are modelled by passing the reply of the bus
call (`Except FdoError Val`) as an argument to the embedded operation.
-/

namespace ZbusProxy

/-- Errors surfaced by the embedded operations: the `Error::InvalidReply` and
`Error::Unsupported` variants used in `proxy.rs`, with `transport` standing
for every other bus/transport error a call may return. -/
inductive FdoError : Type where
  | invalidReply
  | unsupported
  | transport
  deriving DecidableEq, Repr

/-- Model of `slotmap::SlotMap<K, V>` as used for the per-property
change-handler collection: insertion-ordered entries plus a counter that
yields a fresh key on every insertion (a removed key is never handed out
again, mirroring slot-map key versioning). -/
structure SlotMap (H : Type) : Type where
  nextKey : Nat
  entries : List (Nat × H)
  deriving Repr

/-- `SlotMap::with_key()`: the empty slot map. -/
def SlotMap.empty {H : Type} : SlotMap H := ⟨0, []⟩

/-- `SlotMap::insert`: append the handler under a fresh key, return the key. -/
def SlotMap.insert {H : Type} (m : SlotMap H) (h : H) : Nat × SlotMap H :=
  (m.nextKey, ⟨m.nextKey + 1, m.entries ++ [(m.nextKey, h)]⟩)

/-- Key lookup in a slot map. -/
def SlotMap.get {H : Type} (m : SlotMap H) (k : Nat) : Option H :=
  (m.entries.find? (fun e => e.1 == k)).map (fun e => e.2)

/-- `SlotMap::remove(k).is_some()` together with the removal itself: returns
whether the key was present, and the map without it. -/
def SlotMap.remove {H : Type} (m : SlotMap H) (k : Nat) : Bool × SlotMap H :=
  (m.entries.any (fun e => e.1 == k), ⟨m.nextKey, m.entries.filter (fun e => e.1 != k)⟩)

/-- Well-formedness maintained by every slot map the proxy builds: keys handed
out so far are below the fresh-key counter, so a fresh key never collides. -/
def SlotMap.WF {H : Type} (m : SlotMap H) : Prop :=
  ∀ p ∈ m.entries, p.1 < m.nextKey

/-- `PropertyValue` from `proxy.rs`: the optional last-seen value and the
optional slot map of change handlers.  The `event: Event` notifier only
wakes `PropertyStream`s and carries no data; it is not part of the state
the claims quantify over, so it is elided. -/
structure PropertyValue (Val H : Type) : Type where
  value : Option Val
  handlers : Option (SlotMap H)

/-- `PropertyValue::default()`: no value, no handlers. -/
def PropertyValue.empty {Val H : Type} : PropertyValue Val H := ⟨none, none⟩

/-- The `values` map of `ProxyProperties`, `HashMap<String, PropertyValue>`,
as a function from property names to optional entries. -/
abbrev Cache (Val H : Type) : Type := String → Option (PropertyValue Val H)

/-- The freshly built cache: `Default::default()`, no entries. -/
def emptyCache {Val H : Type} : Cache Val H := fun _ => none

/-- Point update of the cache map at one name. -/
def updateEntry {Val H : Type} (c : Cache Val H) (k : String) (e : PropertyValue Val H) :
    Cache Val H :=
  fun n => if n = k then some e else c n

/-- The value a cache holds for a name: `values.get(k).and_then(|e| e.value)`. -/
def entryValue {Val H : Type} (c : Cache Val H) (k : String) : Option Val :=
  (c k).bind (fun e => e.value)

/-- The handlers registered in an entry, in insertion order. -/
def PropertyValue.handlerList {Val H : Type} (e : PropertyValue Val H) : List H :=
  match e.handlers with
  | none => []
  | some m => m.entries.map (fun p => p.2)

/-- The invalidation loop of `ProxyProperties::update_cache`: for each name in
`invalidated`, if an entry exists, clear its value, notify the event and
collect one `handler(None)` future per registered handler.  Absent entries
are left absent (`values.get_mut` finds nothing).  The returned list holds
the collected handler invocations (handler, argument). -/
def applyInvalidated {Val H : Type} (c : Cache Val H) :
    List String → Cache Val H × List (H × Option Val)
  | [] => (c, [])
  | inval :: rest =>
    match c inval with
    | none => applyInvalidated c rest
    | some e =>
      let c1 := updateEntry c inval { e with value := none }
      let r := applyInvalidated c1 rest
      (r.1, (e.handlerList.map (fun h => (h, (none : Option Val)))) ++ r.2)

/-- The change loop of `ProxyProperties::update_cache`: for each
`(name, value)` pair in `changed`, create the entry if missing
(`entry(..).or_insert_with(default)`), set its value, notify and collect one
`handler(Some(value))` future per registered handler. -/
def applyChanged {Val H : Type} (c : Cache Val H) :
    List (String × Val) → Cache Val H × List (H × Option Val)
  | [] => (c, [])
  | (name, v) :: rest =>
    let e := (c name).getD PropertyValue.empty
    let c1 := updateEntry c name { e with value := some v }
    let r := applyChanged c1 rest
    (r.1, (e.handlerList.map (fun h => (h, some v))) ++ r.2)

/-- `ProxyProperties::update_cache(changed, invalidated)`: invalidations are
applied first, then changes; the collected handler futures are returned in
collection order (the source pushes them into one `FuturesUnordered`). -/
def update_cache {Val H : Type} (c : Cache Val H) (changed : List (String × Val))
    (invalidated : List String) : Cache Val H × List (H × Option Val) :=
  let ri := applyInvalidated c invalidated
  let rc := applyChanged ri.1 changed
  (rc.1, ri.2 ++ rc.2)

/-- `Proxy::set_cached_property(name, value)`: create the entry if missing and
set its value field (unconditionally). -/
def set_cached_property {Val H : Type} (c : Cache Val H) (name : String)
    (value : Option Val) : Cache Val H :=
  updateEntry c name { ((c name).getD PropertyValue.empty) with value := value }

/-- The seeding loop at the end of `Proxy::cache_properties`: for every
`(name, value)` returned by `Properties.GetAll`, call
`set_cached_property(name, Some(value))`. -/
def seed_get_all {Val H : Type} (c : Cache Val H) (values : List (String × Val)) :
    Cache Val H :=
  values.foldl (fun c p => set_cached_property c p.1 (some p.2)) c

/-- `Option::transpose` on `Option (Except ..)`, as used by
`cached_property`. -/
def optionTranspose {ε α : Type} : Option (Except ε α) → Except ε (Option α)
  | none => .ok none
  | some (.ok a) => .ok (some a)
  | some (.error e) => .error e

/-- `Proxy::cached_property::<T>(name)`: look the entry's value up, convert it
with `T::try_from` (modelled by `tryT`), `transpose`, and map any conversion
error to `InvalidReply`. -/
def cached_property {Val H T : Type} (tryT : Val → Except Unit T) (c : Cache Val H)
    (k : String) : Except FdoError (Option T) :=
  Except.mapError (fun _ => FdoError.invalidReply)
    (optionTranspose (((c k).bind (fun e => e.value)).map tryT))

/-- `Proxy::get_property::<T>(name)`.  `hasCached` is
`Proxy::has_cached_properties()` (the cache task slot is set); `fetch` is the
outcome of the bus call `get_proxy_property` (`Properties.Get`); `tryT`
models `T::try_from`.  Returns the call result, the cache afterwards, and
whether `Properties.Get` was invoked. -/
def get_property {Val H T : Type} (hasCached : Bool) (tryT : Val → Except Unit T)
    (fetch : Except FdoError Val) (c : Cache Val H) (k : String) :
    Except FdoError T × Cache Val H × Bool :=
  if hasCached then
    match cached_property tryT c k with
    | .error e => (.error e, c, false)
    | .ok (some value) => (.ok value, c, false)
    | .ok none =>
      match fetch with
      | .error e => (.error e, c, true)
      | .ok value =>
        (Except.mapError (fun _ => FdoError.invalidReply) (tryT value),
         set_cached_property c k (some value), true)
  else
    match fetch with
    | .error e => (.error e, c, true)
    | .ok value => (Except.mapError (fun _ => FdoError.invalidReply) (tryT value), c, true)

/-- `Proxy::connect_property_changed(name, handler)`: `Unsupported` unless the
cache task slot is set (`has_cached_properties`); otherwise insert the
handler into the entry's slot map (creating entry and map as needed) and
return the handler id `(name, key)`. -/
def connect_property_changed {Val H : Type} (taskSet : Bool) (c : Cache Val H)
    (name : String) (hd : H) : Except FdoError ((String × Nat) × Cache Val H) :=
  if taskSet then
    let e := (c name).getD PropertyValue.empty
    let m := e.handlers.getD SlotMap.empty
    let r := m.insert hd
    .ok ((name, r.1), updateEntry c name { e with handlers := some r.2 })
  else
    .error .unsupported

/-- `Proxy::disconnect_property_changed(id)`:
`values.get_mut(id.name).and_then(|e| e.handlers.as_mut()).map_or(false, |h|
h.remove(id.key).is_some())`. -/
def disconnect_property_changed {Val H : Type} (c : Cache Val H) (name : String)
    (key : Nat) : Bool × Cache Val H :=
  match c name with
  | none => (false, c)
  | some e =>
    match e.handlers with
    | none => (false, c)
    | some m =>
      let r := m.remove key
      (r.1, updateEntry c name { e with handlers := some r.2 })

/-- The handler stored in the cache under `(name, key)`, if any. -/
def handlerAt {Val H : Type} (c : Cache Val H) (name : String) (key : Nat) : Option H :=
  ((c name).bind (fun e => e.handlers)).bind (fun m => m.get key)

/-- The cache effect of `Proxy::receive_property_stream(name)`: create the
entry if missing (`entry(..).or_insert_with(default)`); the stream keeps the
name and re-looks the entry up on every poll. -/
def receive_property_stream_cache {Val H : Type} (c : Cache Val H) (name : String) :
    Cache Val H :=
  updateEntry c name ((c name).getD PropertyValue.empty)

/-- The entry lookup of `PropertyStream::poll_next`:
`values.get(name).expect(..)` followed by reading the entry's value.  `none`
models the `expect` panic (entry missing). -/
def pollNextLookup {Val H : Type} (c : Cache Val H) (name : String) :
    Option (Option Val) :=
  (c name).map (fun e => e.value)

/-- Every cache-mutating operation of the proxy core, for quantifying over
arbitrary interleavings of cache activity. -/
inductive CacheOp (Val H : Type) : Type where
  | update (changed : List (String × Val)) (invalidated : List String)
  | setCached (name : String) (value : Option Val)
  | connect (taskSet : Bool) (name : String) (hd : H)
  | disconnect (name : String) (key : Nat)
  | receiveStream (name : String)

/-- Apply one cache operation (a failed `connect_property_changed` leaves the
cache unchanged). -/
def applyOp {Val H : Type} (c : Cache Val H) : CacheOp Val H → Cache Val H
  | .update changed invalidated => (update_cache c changed invalidated).1
  | .setCached name v => set_cached_property c name v
  | .connect taskSet name hd =>
    match connect_property_changed taskSet c name hd with
    | .ok r => r.2
    | .error _ => c
  | .disconnect name key => (disconnect_property_changed c name key).2
  | .receiveStream name => receive_property_stream_cache c name

/-- Apply a sequence of cache operations in order. -/
def applyOps {Val H : Type} (c : Cache Val H) (ops : List (CacheOp Val H)) :
    Cache Val H :=
  ops.foldl applyOp c

/-- One `PropertiesChanged` payload for this interface: the `changed` map and
the `invalidated` list. -/
structure PropsChanged (Val : Type) : Type where
  changed : List (String × Val)
  invalidated : List String

/-- Apply a sequence of `PropertiesChanged` payloads through `update_cache`. -/
def applyUpdates {Val H : Type} (c : Cache Val H) (us : List (PropsChanged Val)) :
    Cache Val H :=
  us.foldl (fun c u => (update_cache c u.changed u.invalidated).1) c

/-- Scan a latest-first list of `PropertiesChanged` payloads for the governing
occurrence of `k`, following the spec's words: the value for `k` in the last
`changed` map after the last appearance of `k` in any `invalidated` list,
`none` if that appearance is later or `k` never appears.  Within one payload
the `changed` map is applied after the `invalidated` list, so it wins. -/
def specLookupRev {Val : Type} (k : String) : List (PropsChanged Val) → Option Val
  | [] => none
  | u :: rest =>
    match u.changed.lookup k with
    | some v => some v
    | none => if k ∈ u.invalidated then none else specLookupRev k rest

/-- The cache value the spec's cache-consistency invariant predicts for `k`
after a sequence of `PropertiesChanged` payloads (oldest first). -/
def specCachedValue {Val : Type} (us : List (PropsChanged Val)) (k : String) :
    Option Val :=
  specLookupRev k us.reverse

/-- Last-occurrence lookup in an association list, matching the fold order in
which `update_cache` applies a `changed` list. -/
def lastLookup {Val : Type} : List (String × Val) → String → Option Val
  | [], _ => none
  | (a, b) :: rest, k =>
    match lastLookup rest k with
    | some v => some v
    | none => if a = k then some b else none

/-- The D-Bus message types distinguished by `SignalStream::filter`. -/
inductive MessageType : Type where
  | methodCall
  | methodReturn
  | signal
  | error
  deriving DecidableEq, Repr

/-- The message header as consulted by the filter: `header.sender()` may fail
on a malformed header field. -/
structure MsgHeader : Type where
  sender : Except Unit (Option String)

/-- An inbound message as consulted by `SignalStream::filter`.  Every field
accessor of `zbus::Message` used by the filter returns a `Result`; a failed
parse is `.error ()`.  `bodyUniqueName` is `msg.body::<OwnedUniqueName>()`,
`bodyNameOwnerChanged` is the body parsed as the `NameOwnerChanged`
signature `(WellKnownName, Optional<UniqueName>, Optional<UniqueName>)`. -/
structure Message : Type where
  msgType : MessageType
  replySerial : Except Unit (Option Nat)
  member : Except Unit (Option String)
  interface : Except Unit (Option String)
  path : Except Unit (Option String)
  header : Except Unit MsgHeader
  bodyUniqueName : Except Unit String
  bodyNameOwnerChanged : Except Unit (String × Option String × Option String)

/-- The mutable filtering state of `SignalStream`: the tracked well-known
destination (if any), the serial of the pending `GetNameOwner` query, the
current unique owner of the destination, and the member filter. -/
structure SignalStream : Type where
  srcBusName : Option String
  srcQuery : Option Nat
  srcUniqueName : Option String
  member : Option String
  deriving DecidableEq, Repr

/-- The signal-match condition of `SignalStream::filter`:
`(member.is_none() || memb == member) && path == Some(proxy.path) && iface ==
Some(proxy.interface)`. -/
def signalMatches (pp pi : String) (memberFilter : Option String)
    (memb iface path : Option String) : Bool :=
  (memberFilter.isNone || memb == memberFilter) && path == some pp && iface == some pi

/-- The leading `METHOD_RETURN` branch of `SignalStream::filter`: when the
message is a method return and a `GetNameOwner` query is pending and the
reply serial matches, clear the pending serial and store the unique name
parsed from the body.  Returns the updated state and `some ()` when a field
access failed and the error propagates (the source mutates `self` before the
`?` operator returns). -/
def queryReplyStep (s : SignalStream) (msg : Message) : SignalStream × Option Unit :=
  if msg.msgType = .methodReturn ∧ s.srcQuery.isSome then
    match msg.replySerial with
    | .error _ => (s, some ())
    | .ok rs =>
      if rs = s.srcQuery then
        match msg.bodyUniqueName with
        | .error _ => ({ s with srcQuery := none }, some ())
        | .ok u => ({ s with srcQuery := none, srcUniqueName := some u }, none)
      else (s, none)
  else (s, none)

/-- The trailing `NameOwnerChanged` tracking of `SignalStream::filter`,
reached only when the message was not yielded: when a well-known destination
is tracked and the signal is `NameOwnerChanged` from the bus driver about
that name, update `src_unique_name` to the new owner.  `memb`, `iface` and
`path` are the already-extracted message fields.  Always reports no match;
a header or body parse failure propagates as an error. -/
def nameOwnerChangedStep (s1 : SignalStream) (msg : Message)
    (memb iface path : Option String) : Except Unit Bool × SignalStream :=
  match s1.srcBusName with
  | none => (.ok false, s1)
  | some busName =>
    if memb = some "NameOwnerChanged" ∧ iface = some "org.freedesktop.DBus"
        ∧ path = some "/org/freedesktop/DBus" then
      match msg.header with
      | .error e => (.error e, s1)
      | .ok h =>
        match h.sender with
        | .ok (some sndr) =>
          if sndr = "org.freedesktop.DBus" then
            match msg.bodyNameOwnerChanged with
            | .error e => (.error e, s1)
            | .ok (name, _, newOwner) =>
              if name = busName then
                (.ok false, { s1 with srcUniqueName := newOwner })
              else (.ok false, s1)
          else (.ok false, s1)
        | _ => (.ok false, s1)
    else (.ok false, s1)

/-- `SignalStream::filter(msg)`: returns the `Result<bool>` of the source
together with the stream state afterwards. -/
def SignalStream.filterMsg (pp pi : String) (s : SignalStream) (msg : Message) :
    Except Unit Bool × SignalStream :=
  match queryReplyStep s msg with
  | (s1, some e) => (.error e, s1)
  | (s1, none) =>
    if msg.msgType ≠ .signal then (.ok false, s1)
    else
      match msg.member with
      | .error e => (.error e, s1)
      | .ok memb =>
        match msg.interface with
        | .error e => (.error e, s1)
        | .ok iface =>
          match msg.path with
          | .error e => (.error e, s1)
          | .ok path =>
            let attempt : Option (Except Unit Bool) :=
              if signalMatches pp pi s1.member memb iface path then
                match msg.header with
                | .error e => some (.error e)
                | .ok h =>
                  match h.sender with
                  | .error e => some (.error e)
                  | .ok sndr =>
                    if sndr = s1.srcUniqueName then some (.ok true) else none
              else none
            match attempt with
            | some r => (r, s1)
            | none => nameOwnerChangedStep s1 msg memb iface path

/-- `SignalStream::poll_next` over a finite inbound message list: yield
exactly the messages on which `filter` returns `Ok(true)`, threading the
stream state. -/
def pollAll (pp pi : String) : SignalStream → List Message → List Message × SignalStream
  | s, [] => ([], s)
  | s, msg :: rest =>
    let r := SignalStream.filterMsg pp pi s msg
    let t := pollAll pp pi r.2 rest
    match r.1 with
    | .ok true => (msg :: t.1, t.2)
    | _ => t

/-- Modelled from the spec: the `Connection`'s signal-handler registry and its
`remove_signal_handler(id)` operation are not part of `src/` (only
`proxy.rs` is); per §6 the connection offers
`add_signal_handler(handler) → HandlerId` / `remove_signal_handler(id)`.
Removal returns whether a handler with that id was registered and removes
it. -/
structure ConnState : Type where
  handlers : List Nat
  deriving DecidableEq, Repr

/-- Modelled from the spec: `Connection::remove_signal_handler(id)` — remove
the handler registered under `id`, reporting whether it was present. -/
def ConnState.remove_signal_handler (cs : ConnState) (id : Nat) : Bool × ConnState :=
  (cs.handlers.contains id, ⟨cs.handlers.filter (fun x => x != id)⟩)

/-- The proxy-side list of installed signal-handler keys
(`ProxyInnerStatic::sig_handlers`). -/
structure ProxyHandlers : Type where
  sigHandlers : List Nat
  deriving DecidableEq, Repr

/-- `Proxy::disconnect_signal(id)`: drop the key from the proxy's
`sig_handlers` list (`retain`), then return the result of the connection's
`remove_signal_handler`. -/
def disconnect_signal (p : ProxyHandlers) (cs : ConnState) (id : Nat) :
    Bool × ProxyHandlers × ConnState :=
  let p2 : ProxyHandlers := ⟨p.sigHandlers.filter (fun x => x != id)⟩
  let r := cs.remove_signal_handler id
  (r.1, p2, r.2)

/-! ## Helper lemmas -/

theorem cached_property_eq {Val H T : Type} (tryT : Val → Except Unit T) (c : Cache Val H)
    (k : String) :
    cached_property tryT c k =
      match entryValue c k with
      | none => .ok none
      | some v =>
        match tryT v with
        | .ok t => .ok (some t)
        | .error _ => .error .invalidReply := by
  unfold cached_property entryValue
  rcases hb : (c k).bind (fun e => e.value) with _ | v
  · simp [hb, optionTranspose, Except.mapError]
  · rcases ht : tryT v with t | e <;> simp [hb, ht, optionTranspose, Except.mapError]

theorem entryValue_updateEntry {Val H : Type} (c : Cache Val H) (k : String)
    (e : PropertyValue Val H) (n : String) :
    entryValue (updateEntry c k e) n = if n = k then e.value else entryValue c n := by
  unfold entryValue updateEntry
  by_cases h : n = k <;> simp [h]

theorem entryValue_set_cached_property {Val H : Type} (c : Cache Val H) (k : String)
    (v : Option Val) (n : String) :
    entryValue (set_cached_property c k v) n = if n = k then v else entryValue c n := by
  unfold set_cached_property
  rw [entryValue_updateEntry]

theorem lastLookup_not_mem {Val : Type} (l : List (String × Val)) (k : String)
    (h : k ∉ l.map Prod.fst) : lastLookup l k = none := by
  induction l with
  | nil => rfl
  | cons p rest ih =>
    obtain ⟨a, b⟩ := p
    simp only [List.map_cons, List.mem_cons] at h
    push_neg at h
    unfold lastLookup
    rw [ih h.2]
    simp [Ne.symm h.1]

theorem seed_not_mem {Val H : Type} (c : Cache Val H) (values : List (String × Val))
    (name : String) (h : name ∉ values.map Prod.fst) :
    entryValue (seed_get_all c values) name = entryValue c name := by
  induction values generalizing c with
  | nil => rfl
  | cons p rest ih =>
    obtain ⟨a, b⟩ := p
    simp only [List.map_cons, List.mem_cons] at h
    push_neg at h
    show entryValue (seed_get_all (set_cached_property c a (some b)) rest) name = _
    rw [ih _ h.2, entryValue_set_cached_property, if_neg h.1]

/-! ## C1: `GetAll` seeding versus concurrent `PropertiesChanged` updates -/

/-- C1, counterexample: the claim states that seeding with the `GetAll` result
never overwrites a cache entry already holding a value written by a later
`update_cache` call.  On the code it is false: after
`update_cache` wrote `2` for property `"a"`, seeding with a `GetAll` result
pairing `"a"` with `1` replaces the value, because `set_cached_property`
assigns unconditionally. -/
theorem c1_seed_overwrite_counterexample :
    entryValue (update_cache (emptyCache : Cache Nat Unit) [("a", 2)] []).1 "a" = some 2
    ∧ entryValue
        (seed_get_all (update_cache (emptyCache : Cache Nat Unit) [("a", 2)] []).1
          [("a", 1)]) "a" ≠ some 2 := by
  constructor
  · rfl
  · decide

/-- C1, amended: seeding applies the `GetAll` result unconditionally — after
`cache_properties` seeds the cache, every property named in the `GetAll`
result holds the `GetAll` value, overwriting whatever value (including one
written by a later `update_cache` call) the entry held before. -/
theorem c1_seed_unconditional {Val H : Type} (c : Cache Val H)
    (values : List (String × Val)) (name : String) (v : Val)
    (hnd : (values.map Prod.fst).Nodup) (hv : values.lookup name = some v) :
    entryValue (seed_get_all c values) name = some v := by
  induction values generalizing c with
  | nil => simp [List.lookup] at hv
  | cons p rest ih =>
    obtain ⟨a, b⟩ := p
    simp only [List.map_cons, List.nodup_cons] at hnd
    rw [List.lookup_cons] at hv
    show entryValue (seed_get_all (set_cached_property c a (some b)) rest) name = some v
    by_cases hk : name = a
    · subst hk
      simp only [beq_self_eq_true, if_true] at hv
      rw [seed_not_mem _ _ _ hnd.1, entryValue_set_cached_property, if_pos rfl]
      simpa using hv
    · have hbeq : (name == a) = false := by simpa using hk
      rw [hbeq] at hv
      simp only [Bool.false_eq_true, if_false] at hv
      exact ih _ hnd.2 hv

/-- C1, witness for the amended theorem at a concrete seeding. -/
theorem c1_seed_unconditional_witness :
    entryValue
      (seed_get_all (update_cache (emptyCache : Cache Nat Unit) [("a", 2)] []).1
        [("a", 1), ("b", 7)]) "a" = some 1 :=
  c1_seed_unconditional _ _ _ _ (by decide) (by decide)

/-! ## C10: `cached_property` result shape -/

/-- C10: `cached_property` returns `InvalidReply` (not `None`) when the cache
holds a value that does not convert to `T`; it returns `Ok(none)` exactly
when the entry is absent or its value is absent; and it returns
`Ok(some t)` when the conversion succeeds. -/
theorem c10_cached_property_shape {Val H T : Type} (tryT : Val → Except Unit T)
    (c : Cache Val H) (k : String) :
    (∀ v, entryValue c k = some v → tryT v = .error () →
        cached_property tryT c k = .error .invalidReply)
    ∧ (cached_property tryT c k = .ok none ↔ entryValue c k = none)
    ∧ (∀ v t, entryValue c k = some v → tryT v = .ok t →
        cached_property tryT c k = .ok (some t)) := by
  rw [cached_property_eq]
  refine ⟨?_, ?_, ?_⟩
  · intro v hv ht
    rw [hv]
    simp [ht]
  · rcases hv : entryValue c k with _ | v
    · simp [hv]
    · rcases ht : tryT v with t | e <;> simp [hv, ht]
  · intro v t hv ht
    rw [hv]
    simp [ht]

/-- C10, witness: a cache holding a non-convertible value yields
`InvalidReply`. -/
theorem c10_cached_property_shape_witness :
    cached_property (fun _ : Nat => (.error () : Except Unit Bool))
      (set_cached_property (emptyCache : Cache Nat Unit) "a" (some 5)) "a"
      = .error .invalidReply :=
  (c10_cached_property_shape _ _ _).1 5 (by decide) rfl

/-! ## C8: `connect_property_changed` and cache availability -/

theorem SlotMap.get_insert {H : Type} (m : SlotMap H) (hd : H) (hwf : m.WF) :
    (m.insert hd).2.get (m.insert hd).1 = some hd := by
  unfold SlotMap.insert SlotMap.get
  simp only
  rw [List.find?_append]
  have h1 : m.entries.find? (fun e => e.1 == m.nextKey) = none := by
    rw [List.find?_eq_none]
    intro p hp
    simpa using Nat.ne_of_lt (hwf p hp)
  rw [h1]
  simp

/-- C8: `connect_property_changed` fails with `Unsupported` exactly when the
cache task slot is unset; with caching enabled it registers the handler in
the entry's handler map (creating the entry if missing) and returns its
handler id. -/
theorem c8_connect_property_changed {Val H : Type} (c : Cache Val H) (name : String)
    (hd : H)
    (hwf : SlotMap.WF (((c name).getD PropertyValue.empty).handlers.getD SlotMap.empty)) :
    connect_property_changed false c name hd
        = (.error .unsupported : Except FdoError ((String × Nat) × Cache Val H))
    ∧ ∃ key c2, connect_property_changed true c name hd = .ok ((name, key), c2)
        ∧ handlerAt c2 name key = some hd := by
  constructor
  · rfl
  · refine ⟨_, _, rfl, ?_⟩
    unfold handlerAt updateEntry
    simp only [if_pos rfl, Option.bind_some]
    exact SlotMap.get_insert _ hd hwf

/-- C8, witness at a fresh cache. -/
theorem c8_connect_property_changed_witness :
    connect_property_changed false (emptyCache : Cache Nat Unit) "a" ()
        = (.error .unsupported : Except FdoError ((String × Nat) × Cache Nat Unit)) :=
  (c8_connect_property_changed (emptyCache : Cache Nat Unit) "a" ()
    (by intro p hp; simp [SlotMap.empty, PropertyValue.empty, emptyCache] at hp)).1

/-! ## C3: `get_property` -/

/-- C3: with caching active and a cached value present, `get_property` returns
it (or `InvalidReply` on conversion failure) without touching the bus or the
cache; with no usable cached value it invokes `Properties.Get`, stores the
fetched raw value when caching is active, and returns its conversion; and
given a successful fetch it fails with `InvalidReply` exactly when the value
obtained — cached if present (and caching active), fetched otherwise — does
not convert to `T`. -/
theorem c3_get_property {Val H T : Type} (tryT : Val → Except Unit T)
    (fetch : Except FdoError Val) (c : Cache Val H) (k : String) :
    (∀ v t, entryValue c k = some v → tryT v = .ok t →
        get_property true tryT fetch c k = (.ok t, c, false))
    ∧ (∀ v, entryValue c k = some v → tryT v = .error () →
        get_property true tryT fetch c k = (.error .invalidReply, c, false))
    ∧ (∀ w, entryValue c k = none → fetch = .ok w →
        get_property true tryT fetch c k =
          (Except.mapError (fun _ => FdoError.invalidReply) (tryT w),
            set_cached_property c k (some w), true))
    ∧ (∀ w, fetch = .ok w →
        get_property false tryT fetch c k =
          (Except.mapError (fun _ => FdoError.invalidReply) (tryT w), c, true))
    ∧ (∀ w (hc : Bool), fetch = .ok w →
        ((get_property hc tryT fetch c k).1 = .error FdoError.invalidReply ↔
          tryT (if hc then (entryValue c k).getD w else w) = .error ())) := by
  refine ⟨?_, ?_, ?_, ?_, ?_⟩
  · intro v t hv ht
    simp [get_property, cached_property_eq, hv, ht]
  · intro v hv ht
    simp [get_property, cached_property_eq, hv, ht]
  · intro w hv hf
    simp [get_property, cached_property_eq, hv, hf]
  · intro w hf
    simp [get_property, hf]
  · intro w hc hf
    cases hc with
    | false =>
      simp only [get_property, hf, Bool.false_eq_true, if_false, Option.getD]
      rcases ht : tryT w with t | e <;> simp [ht, Except.mapError]
    | true =>
      rcases hv : entryValue c k with _ | v
      · simp only [get_property, cached_property_eq, hv, hf, if_true]
        rcases ht : tryT w with t | e <;> simp [ht, Except.mapError]
      · simp only [get_property, cached_property_eq, hv, hf, if_true, Option.getD]
        rcases ht : tryT v with t | e <;> simp [ht, Except.mapError]

/-- C3, witness: a cache hit is returned with no bus call. -/
theorem c3_get_property_witness :
    get_property true (fun v : Nat => (.ok v : Except Unit Nat)) (.ok 9)
      (set_cached_property (emptyCache : Cache Nat Unit) "a" (some 5)) "a"
      = (.ok 5, set_cached_property (emptyCache : Cache Nat Unit) "a" (some 5), false) :=
  (c3_get_property _ _ _ _).1 5 5 (by decide) rfl

/-! ## C2: cache consistency under `PropertiesChanged` sequences -/

theorem applyInvalidated_entryValue {Val H : Type} (l : List String) (c : Cache Val H)
    (k : String) :
    entryValue (applyInvalidated c l).1 k = if k ∈ l then none else entryValue c k := by
  induction l generalizing c with
  | nil => simp [applyInvalidated]
  | cons inval rest ih =>
    unfold applyInvalidated
    rcases hc : c inval with _ | e
    · simp only [hc]
      rw [ih]
      by_cases hk : k = inval
      · subst hk
        simp [entryValue, hc]
      · simp [List.mem_cons, hk]
    · simp only [hc]
      rw [ih, entryValue_updateEntry]
      by_cases hk : k = inval
      · subst hk
        simp
      · simp [List.mem_cons, hk]

theorem applyInvalidated_isSome {Val H : Type} (l : List String) (c : Cache Val H)
    (k : String) :
    ((applyInvalidated c l).1 k).isSome = (c k).isSome := by
  induction l generalizing c with
  | nil => rfl
  | cons inval rest ih =>
    unfold applyInvalidated
    rcases hc : c inval with _ | e
    · simp only [hc]
      exact ih c
    · simp only [hc]
      rw [ih]
      unfold updateEntry
      by_cases hk : k = inval
      · subst hk
        simp [hc]
      · simp [hk]

theorem lastLookup_cons {Val : Type} (a : String) (b : Val) (rest : List (String × Val))
    (k : String) :
    lastLookup ((a, b) :: rest) k =
      match lastLookup rest k with
      | some v => some v
      | none => if a = k then some b else none := rfl

theorem applyChanged_entryValue {Val H : Type} (l : List (String × Val)) (c : Cache Val H)
    (k : String) :
    entryValue (applyChanged c l).1 k =
      match lastLookup l k with
      | some v => some v
      | none => entryValue c k := by
  induction l generalizing c with
  | nil => rfl
  | cons p rest ih =>
    obtain ⟨a, b⟩ := p
    show entryValue (applyChanged (updateEntry c a _) rest).1 k = _
    rw [ih, lastLookup_cons]
    rcases hll : lastLookup rest k with _ | v
    · simp only [hll]
      rw [entryValue_updateEntry]
      by_cases hak : a = k
      · subst hak
        simp
      · simp [hak, Ne.symm hak]
    · simp only [hll]

theorem applyChanged_isSome_mono {Val H : Type} (l : List (String × Val)) (c : Cache Val H)
    (k : String) (h : (c k).isSome = true) : ((applyChanged c l).1 k).isSome = true := by
  induction l generalizing c with
  | nil => exact h
  | cons p rest ih =>
    obtain ⟨a, b⟩ := p
    show (((applyChanged (updateEntry c a _) rest).1) k).isSome = true
    apply ih
    unfold updateEntry
    by_cases hk : k = a <;> simp [hk, h]

theorem update_cache_entryValue {Val H : Type} (c : Cache Val H) (ch : List (String × Val))
    (inv : List String) (k : String) :
    entryValue (update_cache c ch inv).1 k =
      match lastLookup ch k with
      | some v => some v
      | none => if k ∈ inv then none else entryValue c k := by
  show entryValue (applyChanged (applyInvalidated c inv).1 ch).1 k = _
  rw [applyChanged_entryValue]
  rcases lastLookup ch k with _ | v
  · simp only
    exact applyInvalidated_entryValue inv c k
  · simp only

theorem lastLookup_eq_lookup {Val : Type} (l : List (String × Val)) (k : String)
    (hnd : (l.map Prod.fst).Nodup) : lastLookup l k = l.lookup k := by
  induction l with
  | nil => rfl
  | cons p rest ih =>
    obtain ⟨a, b⟩ := p
    simp only [List.map_cons, List.nodup_cons] at hnd
    unfold lastLookup
    rw [List.lookup_cons]
    by_cases hk : k = a
    · subst hk
      rw [lastLookup_not_mem rest k hnd.1]
      simp
    · have hbeq : (k == a) = false := by simpa using hk
      rw [hbeq, ih hnd.2]
      simp only [Bool.false_eq_true, if_false]
      rcases h2 : rest.lookup k with _ | v
      · simp [Ne.symm hk]
      · simp

theorem applyUpdates_entryValue {Val H : Type} (us : List (PropsChanged Val)) (k : String)
    (hnd : ∀ u ∈ us, (u.changed.map Prod.fst).Nodup) :
    entryValue (applyUpdates (emptyCache : Cache Val H) us) k = specCachedValue us k := by
  revert hnd
  induction us using List.reverseRecOn with
  | nil => intro _; rfl
  | append_singleton us u ih =>
    intro hnd
    have h1 : applyUpdates (emptyCache : Cache Val H) (us ++ [u])
        = (update_cache (applyUpdates emptyCache us) u.changed u.invalidated).1 := by
      unfold applyUpdates
      rw [List.foldl_append]
      rfl
    have h2 : specCachedValue (us ++ [u]) k =
        match u.changed.lookup k with
        | some v => some v
        | none => if k ∈ u.invalidated then none else specCachedValue us k := by
      unfold specCachedValue
      rw [List.reverse_append]
      rfl
    rw [h1, update_cache_entryValue, h2,
      lastLookup_eq_lookup _ _ (hnd u (by simp)),
      ih (fun v hv => hnd v (by simp [hv]))]

/-- C2: after any sequence of `PropertiesChanged` payloads applied through
`update_cache` to a freshly built cache, `cached_property k` (read without
conversion loss) returns the value `k` was last changed to after its last
invalidation, and `none` when the last appearance of `k` was an invalidation
or `k` never appeared — the scan `specCachedValue` written from the spec's
words. -/
theorem c2_cache_consistency {Val H : Type} (us : List (PropsChanged Val)) (k : String)
    (hnd : ∀ u ∈ us, (u.changed.map Prod.fst).Nodup) :
    cached_property (fun v => (.ok v : Except Unit Val))
        (applyUpdates (emptyCache : Cache Val H) us) k
      = .ok (specCachedValue us k) := by
  rw [cached_property_eq, applyUpdates_entryValue us k hnd]
  rcases specCachedValue us k with _ | v <;> rfl

/-- C2, witness: a change of `"a"` followed by its invalidation yields
`none`; within the same payload a change following the invalidation wins. -/
theorem c2_cache_consistency_witness :
    cached_property (fun v => (.ok v : Except Unit Nat))
        (applyUpdates (emptyCache : Cache Nat Unit)
          [⟨[("a", 1), ("b", 2)], []⟩, ⟨[("b", 3)], ["a"]⟩]) "a"
      = .ok (specCachedValue [⟨[("a", 1), ("b", 2)], []⟩, ⟨[("b", 3)], ["a"]⟩] "a") :=
  c2_cache_consistency _ _ (by decide)

/-! ## C7: disconnect idempotence -/

theorem SlotMap.get_remove {H : Type} (m : SlotMap H) (k : Nat) :
    (m.remove k).2.get k = none := by
  unfold SlotMap.remove SlotMap.get
  have h : List.find? (fun e => e.1 == k) (List.filter (fun e => e.1 != k) m.entries)
      = none := by
    rw [List.find?_eq_none]
    intro p hp
    rw [List.mem_filter] at hp
    simpa using hp.2
  rw [h]
  rfl

theorem SlotMap.remove_found {H : Type} (m : SlotMap H) (k : Nat) :
    (m.remove k).1 = (m.get k).isSome := by
  unfold SlotMap.remove SlotMap.get
  rw [Option.isSome_map']
  rcases h : m.entries.find? (fun e => e.1 == k) with _ | e
  · rw [h]
    rw [List.find?_eq_none] at h
    simp only [Option.isSome_none]
    rw [Bool.eq_false_iff]
    intro hc
    obtain ⟨x, hx, hpx⟩ := List.any_eq_true.mp hc
    exact h x hx hpx
  · rw [h]
    simp only [Option.isSome_some]
    have hp := List.find?_some h
    exact List.any_eq_true.mpr ⟨e, List.mem_of_find?_eq_some h, hp⟩

theorem disconnect_property_changed_found {Val H : Type} (c : Cache Val H) (name : String)
    (key : Nat) :
    (disconnect_property_changed c name key).1 = (handlerAt c name key).isSome := by
  unfold disconnect_property_changed handlerAt
  rcases hc : c name with _ | e
  · simp [hc]
  · rcases hh : e.handlers with _ | m
    · simp [hc, hh]
    · simp [hc, hh, SlotMap.remove_found]

theorem disconnect_property_changed_gone {Val H : Type} (c : Cache Val H) (name : String)
    (key : Nat) :
    handlerAt (disconnect_property_changed c name key).2 name key = none := by
  unfold disconnect_property_changed
  rcases hc : c name with _ | e
  · unfold handlerAt
    simp [hc]
  · rcases hh : e.handlers with _ | m
    · unfold handlerAt
      simp [hc, hh]
    · simp only [hc, hh]
      unfold handlerAt updateEntry
      simp [SlotMap.get_remove]

/-- C7: `disconnect_property_changed` and `disconnect_signal` report `true`
exactly when the handler id is still registered; each removal leaves the id
unregistered, so the first call on a registered id returns `true` and every
subsequent call with the same id returns `false`, never failing.  (The
connection side of `disconnect_signal` is modelled from the spec, see
`ConnState`.) -/
theorem c7_disconnect_idempotent {Val H : Type} (c : Cache Val H) (name : String)
    (key : Nat) (p : ProxyHandlers) (cs : ConnState) (id : Nat) :
    ((handlerAt c name key).isSome = true →
        (disconnect_property_changed c name key).1 = true)
    ∧ handlerAt (disconnect_property_changed c name key).2 name key = none
    ∧ (handlerAt c name key = none →
        (disconnect_property_changed c name key).1 = false)
    ∧ (disconnect_property_changed (disconnect_property_changed c name key).2 name key).1
        = false
    ∧ (id ∈ cs.handlers → (disconnect_signal p cs id).1 = true)
    ∧ id ∉ (disconnect_signal p cs id).2.2.handlers
    ∧ (id ∉ cs.handlers → (disconnect_signal p cs id).1 = false)
    ∧ (disconnect_signal (disconnect_signal p cs id).2.1 (disconnect_signal p cs id).2.2
        id).1 = false := by
  have hnotmem : id ∉ (disconnect_signal p cs id).2.2.handlers := by
    show id ∉ cs.handlers.filter (fun x => x != id)
    intro h
    rw [List.mem_filter] at h
    simp at h
  refine ⟨?_, disconnect_property_changed_gone c name key, ?_, ?_, ?_, hnotmem, ?_, ?_⟩
  · intro h
    rw [disconnect_property_changed_found, h]
  · intro h
    rw [disconnect_property_changed_found, h]
    rfl
  · rw [disconnect_property_changed_found, disconnect_property_changed_gone c name key]
    rfl
  · intro h
    show cs.handlers.contains id = true
    exact List.elem_iff.mpr h
  · intro h
    show cs.handlers.contains id = false
    rw [Bool.eq_false_iff]
    intro hc
    exact h (List.elem_iff.mp hc)
  · show (disconnect_signal p cs id).2.2.handlers.contains id = false
    rw [Bool.eq_false_iff]
    intro hc
    exact hnotmem (List.elem_iff.mp hc)

/-- C7, witness: a registered id yields `true` first and `false` second. -/
theorem c7_disconnect_idempotent_witness :
    (disconnect_property_changed
      (connect_property_changed true (emptyCache : Cache Nat Unit) "a" ()).toOption.get!.2
      "a" 0).1 = true
    ∧ (disconnect_signal ⟨[4]⟩ ⟨[4]⟩ 4).1 = true
    ∧ (disconnect_signal (disconnect_signal ⟨[4]⟩ ⟨[4]⟩ 4).2.1
        (disconnect_signal ⟨[4]⟩ ⟨[4]⟩ 4).2.2 4).1 = false := by
  refine ⟨?_, ?_, ?_⟩
  · exact (c7_disconnect_idempotent _ "a" 0 ⟨[]⟩ ⟨[]⟩ 0).1 (by decide)
  · exact (c7_disconnect_idempotent (emptyCache : Cache Nat Unit) "a" 0 ⟨[4]⟩ ⟨[4]⟩ 4).2.2.2.2.1
      (by decide)
  · exact (c7_disconnect_idempotent (emptyCache : Cache Nat Unit) "a" 0 ⟨[4]⟩ ⟨[4]⟩ 4).2.2.2.2.2.2.2

/-! ## C9: cache entries are never removed -/

theorem applyOp_isSome_mono {Val H : Type} (c : Cache Val H) (op : CacheOp Val H)
    (k : String) (h : (c k).isSome = true) : ((applyOp c op) k).isSome = true := by
  cases op with
  | update ch inv =>
    show ((applyChanged (applyInvalidated c inv).1 ch).1 k).isSome = true
    apply applyChanged_isSome_mono
    rw [applyInvalidated_isSome]
    exact h
  | setCached name v =>
    show ((updateEntry c name _) k).isSome = true
    unfold updateEntry
    by_cases hk : k = name <;> simp [hk, h]
  | connect ts name hd =>
    cases ts
    · exact h
    · show ((updateEntry c name _) k).isSome = true
      unfold updateEntry
      by_cases hk : k = name <;> simp [hk, h]
  | disconnect name key =>
    show (((disconnect_property_changed c name key).2) k).isSome = true
    unfold disconnect_property_changed
    rcases hc : c name with _ | e
    · exact h
    · rcases hh : e.handlers with _ | m
      · simp only [hh]
        exact h
      · simp only [hh]
        unfold updateEntry
        by_cases hk : k = name <;> simp [hk, h]
  | receiveStream name =>
    show ((updateEntry c name _) k).isSome = true
    unfold updateEntry
    by_cases hk : k = name <;> simp [hk, h]

theorem applyOps_isSome_mono {Val H : Type} (ops : List (CacheOp Val H)) (c : Cache Val H)
    (k : String) (h : (c k).isSome = true) : ((applyOps c ops) k).isSome = true := by
  induction ops generalizing c with
  | nil => exact h
  | cons op rest ih => exact ih _ (applyOp_isSome_mono c op k h)

/-- C9: no cache operation ever removes an entry, and after
`receive_property_stream` creates the entry for its property name, the
lookup performed by every `PropertyStream::poll_next` succeeds no matter
which cache operations ran in between. -/
theorem c9_no_eviction {Val H : Type} (c : Cache Val H) (name : String)
    (ops : List (CacheOp Val H)) :
    (∀ (c2 : Cache Val H) (op : CacheOp Val H) (k : String),
        (c2 k).isSome = true → ((applyOp c2 op) k).isSome = true)
    ∧ (pollNextLookup (applyOps (receive_property_stream_cache c name) ops) name).isSome
        = true := by
  refine ⟨fun c2 op k h => applyOp_isSome_mono c2 op k h, ?_⟩
  unfold pollNextLookup
  rw [Option.isSome_map']
  apply applyOps_isSome_mono
  unfold receive_property_stream_cache updateEntry
  simp

/-- C9, witness: the poll lookup succeeds after an invalidation of the
streamed property. -/
theorem c9_no_eviction_witness :
    (pollNextLookup
      (applyOps (receive_property_stream_cache (emptyCache : Cache Nat Unit) "a")
        [CacheOp.update [] ["a"]]) "a").isSome = true :=
  (c9_no_eviction (emptyCache : Cache Nat Unit) "a" [CacheOp.update [] ["a"]]).2

/-! ## C4, C5, C6: `SignalStream` filtering -/

theorem queryReplyStep_not_method_return (s : SignalStream) (msg : Message)
    (h : msg.msgType ≠ .methodReturn) : queryReplyStep s msg = (s, none) := by
  unfold queryReplyStep
  rw [if_neg]
  intro hc
  exact h hc.1

theorem nameOwnerChangedStep_no_yield (s1 s2 : SignalStream) (msg : Message)
    (memb iface path : Option String) :
    nameOwnerChangedStep s1 msg memb iface path ≠ (.ok true, s2) := by
  intro h
  unfold nameOwnerChangedStep at h
  repeat' split at h
  all_goals simp at h

theorem filterMsg_not_signal (pp pi : String) (s s2 : SignalStream) (msg : Message)
    (hty : msg.msgType ≠ .signal) :
    SignalStream.filterMsg pp pi s msg ≠ (.ok true, s2) := by
  intro h
  unfold SignalStream.filterMsg at h
  repeat' split at h
  all_goals simp_all

theorem filterMsg_member_error (pp pi : String) (s : SignalStream) (msg : Message)
    (e : Unit) (hty : msg.msgType = .signal) (hm : msg.member = .error e) :
    SignalStream.filterMsg pp pi s msg = (.error e, s) := by
  obtain ⟨mty, mrs, mm, mi2, mp2, mh, mbu, mbn⟩ := msg
  replace hty : mty = .signal := hty
  replace hm : mm = .error e := hm
  subst hty
  subst hm
  rfl

theorem filterMsg_interface_error (pp pi : String) (s : SignalStream) (msg : Message)
    (e : Unit) (memb : Option String) (hty : msg.msgType = .signal)
    (hm : msg.member = .ok memb) (hi : msg.interface = .error e) :
    SignalStream.filterMsg pp pi s msg = (.error e, s) := by
  obtain ⟨mty, mrs, mm, mi2, mp2, mh, mbu, mbn⟩ := msg
  replace hty : mty = .signal := hty
  replace hm : mm = .ok memb := hm
  replace hi : mi2 = .error e := hi
  subst hty
  subst hm
  subst hi
  rfl

theorem filterMsg_path_error (pp pi : String) (s : SignalStream) (msg : Message)
    (e : Unit) (memb iface : Option String) (hty : msg.msgType = .signal)
    (hm : msg.member = .ok memb) (hi : msg.interface = .ok iface)
    (hp : msg.path = .error e) :
    SignalStream.filterMsg pp pi s msg = (.error e, s) := by
  obtain ⟨mty, mrs, mm, mi2, mp2, mh, mbu, mbn⟩ := msg
  replace hty : mty = .signal := hty
  replace hm : mm = .ok memb := hm
  replace hi : mi2 = .ok iface := hi
  replace hp : mp2 = .error e := hp
  subst hty
  subst hm
  subst hi
  subst hp
  rfl

/-- The behaviour of `SignalStream::filter` on a signal message whose member,
interface and path fields all parse: the yield attempt followed by
`NameOwnerChanged` tracking. -/
theorem filterMsg_signal (pp pi : String) (s : SignalStream) (msg : Message)
    (memb iface path : Option String)
    (hty : msg.msgType = .signal) (hm : msg.member = .ok memb)
    (hi : msg.interface = .ok iface) (hp : msg.path = .ok path) :
    SignalStream.filterMsg pp pi s msg =
      if signalMatches pp pi s.member memb iface path then
        match msg.header with
        | .error e => (.error e, s)
        | .ok hd =>
          match hd.sender with
          | .error e => (.error e, s)
          | .ok sndr =>
            if sndr = s.srcUniqueName then (.ok true, s)
            else nameOwnerChangedStep s msg memb iface path
      else nameOwnerChangedStep s msg memb iface path := by
  obtain ⟨mty, mrs, mm, mi2, mp2, mh, mbu, mbn⟩ := msg
  replace hty : mty = .signal := hty
  replace hm : mm = .ok memb := hm
  replace hi : mi2 = .ok iface := hi
  replace hp : mp2 = .ok path := hp
  subst hty
  subst hm
  subst hi
  subst hp
  by_cases hsm : signalMatches pp pi s.member memb iface path
  · rcases mh with e | hd
    · simp [SignalStream.filterMsg, queryReplyStep, hsm]
    · obtain ⟨hsnd⟩ := hd
      rcases hsnd with e | sndr
      · simp [SignalStream.filterMsg, queryReplyStep, hsm]
      · by_cases heq : sndr = s.srcUniqueName
        · simp [SignalStream.filterMsg, queryReplyStep, hsm, heq]
        · simp [SignalStream.filterMsg, queryReplyStep, hsm, heq]
  · simp [SignalStream.filterMsg, queryReplyStep, hsm]

/-- C4: any message on which `SignalStream::filter` reports a match (and which
`poll_next` therefore yields) is a signal whose path and interface are the
proxy's, whose member satisfies the stream's member filter (absent filter
matching everything), and whose sender equals the stream's current unique
owner at that moment; the state is unchanged by the yield. -/
theorem c4_signal_filter_sound (pp pi : String) (s s2 : SignalStream) (msg : Message)
    (h : SignalStream.filterMsg pp pi s msg = (.ok true, s2)) :
    msg.msgType = .signal
    ∧ msg.path = .ok (some pp)
    ∧ msg.interface = .ok (some pi)
    ∧ (s2.member = none ∨ msg.member = .ok s2.member)
    ∧ (∃ hd, msg.header = .ok hd ∧ hd.sender = .ok s2.srcUniqueName)
    ∧ s2 = s := by
  by_cases hty : msg.msgType = .signal
  case neg => exact absurd h (filterMsg_not_signal pp pi s s2 msg hty)
  case pos =>
  rcases hm : msg.member with e | memb
  case error =>
    rw [filterMsg_member_error pp pi s msg e hty hm] at h
    simp at h
  case ok =>
  rcases hi : msg.interface with e | iface
  case error =>
    rw [filterMsg_interface_error pp pi s msg e memb hty hm hi] at h
    simp at h
  case ok =>
  rcases hp : msg.path with e | path
  case error =>
    rw [filterMsg_path_error pp pi s msg e memb iface hty hm hi hp] at h
    simp at h
  case ok =>
  rw [filterMsg_signal pp pi s msg memb iface path hty hm hi hp] at h
  by_cases hsm : signalMatches pp pi s.member memb iface path
  case neg =>
    rw [if_neg hsm] at h
    exact absurd h (nameOwnerChangedStep_no_yield s s2 msg memb iface path)
  case pos =>
  rw [if_pos hsm] at h
  rcases hh : msg.header with e | hd
  case error => simp [hh] at h
  case ok =>
  simp only [hh] at h
  rcases hsn : hd.sender with e | sndr
  case error => simp [hsn] at h
  case ok =>
  simp only [hsn] at h
  by_cases heq : sndr = s.srcUniqueName
  case neg =>
    rw [if_neg heq] at h
    exact absurd h (nameOwnerChangedStep_no_yield s s2 msg memb iface path)
  case pos =>
  rw [if_pos heq] at h
  have hs2 : s2 = s := (congrArg Prod.snd h).symm
  subst hs2
  unfold signalMatches at hsm
  simp only [Bool.and_eq_true, Bool.or_eq_true, beq_iff_eq, Option.isNone_iff_eq_none]
    at hsm
  refine ⟨hty, ?_, ?_, ?_, ⟨hd, rfl, ?_⟩, rfl⟩
  · rw [hsm.1.2]
  · rw [hsm.2]
  · rcases hsm.1.1 with hb | hb
    · exact Or.inl hb
    · exact Or.inr (by rw [hb])
  · rw [hsn, heq]

/-- C4, witness: a matching signal is yielded and satisfies the filter
conditions. -/
theorem c4_signal_filter_sound_witness :
    (⟨.signal, .ok none, .ok (some "Sig"), .ok (some "org.example.I"),
        .ok (some "/org/example/O"), .ok ⟨.ok (some ":1.7")⟩, .error (),
        .error ()⟩ : Message).msgType = .signal
    ∧ (⟨.signal, .ok none, .ok (some "Sig"), .ok (some "org.example.I"),
        .ok (some "/org/example/O"), .ok ⟨.ok (some ":1.7")⟩, .error (),
        .error ()⟩ : Message).path = .ok (some "/org/example/O") := by
  have hc := c4_signal_filter_sound "/org/example/O" "org.example.I"
    ⟨none, none, some ":1.7", some "Sig"⟩ ⟨none, none, some ":1.7", some "Sig"⟩
    ⟨.signal, .ok none, .ok (some "Sig"), .ok (some "org.example.I"),
      .ok (some "/org/example/O"), .ok ⟨.ok (some ":1.7")⟩, .error (), .error ()⟩
    rfl
  exact ⟨hc.1, hc.2.1⟩

/-- C5: a `METHOD_RETURN` whose reply serial equals the pending `GetNameOwner`
serial stores the unique name parsed from the body as the current unique
owner, clears the pending serial, and is not yielded. -/
theorem c5_pending_reply (pp pi : String) (s : SignalStream) (msg : Message) (q : Nat)
    (u : String) (hty : msg.msgType = .methodReturn) (hq : s.srcQuery = some q)
    (hrs : msg.replySerial = .ok (some q)) (hb : msg.bodyUniqueName = .ok u) :
    SignalStream.filterMsg pp pi s msg =
      (.ok false, { s with srcQuery := none, srcUniqueName := some u }) := by
  obtain ⟨mty, mrs, mm, mi2, mp2, mh, mbu, mbn⟩ := msg
  replace hty : mty = .methodReturn := hty
  replace hrs : mrs = .ok (some q) := hrs
  replace hb : mbu = .ok u := hb
  subst hty
  subst hrs
  subst hb
  rcases s with ⟨sb, sq, su, sm⟩
  replace hq : sq = some q := hq
  subst hq
  simp [SignalStream.filterMsg, queryReplyStep]

/-- C5, witness. -/
theorem c5_pending_reply_witness :
    SignalStream.filterMsg "/p" "i"
        ⟨some "org.example.W", some 42, none, none⟩
        ⟨.methodReturn, .ok (some 42), .error (), .error (), .error (), .error (),
          .ok ":1.9", .error ()⟩
      = (.ok false, ⟨some "org.example.W", none, some ":1.9", none⟩) :=
  c5_pending_reply "/p" "i" ⟨some "org.example.W", some 42, none, none⟩
    ⟨.methodReturn, .ok (some 42), .error (), .error (), .error (), .error (),
      .ok ":1.9", .error ()⟩ 42 ":1.9" rfl rfl rfl rfl

theorem nameOwnerChangedStep_update (s1 : SignalStream) (msg : Message) (bn : String)
    (old newOwner : Option String) (hd : MsgHeader)
    (hb : s1.srcBusName = some bn) (hh : msg.header = .ok hd)
    (hs : hd.sender = .ok (some "org.freedesktop.DBus"))
    (hbody : msg.bodyNameOwnerChanged = .ok (bn, old, newOwner)) :
    nameOwnerChangedStep s1 msg (some "NameOwnerChanged")
        (some "org.freedesktop.DBus") (some "/org/freedesktop/DBus")
      = (.ok false, { s1 with srcUniqueName := newOwner }) := by
  obtain ⟨mty, mrs, mm, mi2, mp2, mh, mbu, mbn⟩ := msg
  replace hh : mh = .ok hd := hh
  replace hbody : mbn = .ok (bn, old, newOwner) := hbody
  subst hh
  subst hbody
  obtain ⟨hsnd⟩ := hd
  replace hs : hsnd = .ok (some "org.freedesktop.DBus") := hs
  subst hs
  rcases s1 with ⟨sb, sq, su, sm⟩
  replace hb : sb = some bn := hb
  subst hb
  simp [nameOwnerChangedStep]

/-- C6: a `NameOwnerChanged` signal from the bus driver about the tracked
well-known name that is not itself yielded updates the stream's current
unique owner to the (possibly absent) new owner and reports no match. -/
theorem c6_name_owner_changed_tracks (pp pi : String) (s : SignalStream) (msg : Message)
    (bn : String) (old newOwner : Option String) (hd : MsgHeader)
    (hbus : s.srcBusName = some bn)
    (hty : msg.msgType = .signal)
    (hm : msg.member = .ok (some "NameOwnerChanged"))
    (hi : msg.interface = .ok (some "org.freedesktop.DBus"))
    (hp : msg.path = .ok (some "/org/freedesktop/DBus"))
    (hh : msg.header = .ok hd)
    (hs : hd.sender = .ok (some "org.freedesktop.DBus"))
    (hbody : msg.bodyNameOwnerChanged = .ok (bn, old, newOwner))
    (hnoyield : signalMatches pp pi s.member (some "NameOwnerChanged")
          (some "org.freedesktop.DBus") (some "/org/freedesktop/DBus") = false
        ∨ s.srcUniqueName ≠ some "org.freedesktop.DBus") :
    SignalStream.filterMsg pp pi s msg
      = (.ok false, { s with srcUniqueName := newOwner }) := by
  rw [filterMsg_signal pp pi s msg (some "NameOwnerChanged")
    (some "org.freedesktop.DBus") (some "/org/freedesktop/DBus") hty hm hi hp]
  have hnoc := nameOwnerChangedStep_update s msg bn old newOwner hd hbus hh hs hbody
  by_cases hsm : signalMatches pp pi s.member (some "NameOwnerChanged")
      (some "org.freedesktop.DBus") (some "/org/freedesktop/DBus")
  · rw [if_pos hsm]
    have hneq : s.srcUniqueName ≠ some "org.freedesktop.DBus" := by
      rcases hnoyield with hf | hn
      · rw [hsm] at hf
        cases hf
      · exact hn
    simp only [hh, hs]
    rw [if_neg (fun hc => hneq hc.symm)]
    exact hnoc
  · rw [if_neg hsm]
    exact hnoc

/-- C6, witness: the owner is updated to the new owner and no match is
reported. -/
theorem c6_name_owner_changed_tracks_witness :
    SignalStream.filterMsg "/org/example/O" "org.example.I"
        ⟨some "org.example.W", none, some ":1.2", some "Sig"⟩
        ⟨.signal, .ok none, .ok (some "NameOwnerChanged"),
          .ok (some "org.freedesktop.DBus"), .ok (some "/org/freedesktop/DBus"),
          .ok ⟨.ok (some "org.freedesktop.DBus")⟩, .error (),
          .ok ("org.example.W", some ":1.2", some ":1.8")⟩
      = (.ok false, ⟨some "org.example.W", none, some ":1.8", some "Sig"⟩) :=
  c6_name_owner_changed_tracks "/org/example/O" "org.example.I"
    ⟨some "org.example.W", none, some ":1.2", some "Sig"⟩
    ⟨.signal, .ok none, .ok (some "NameOwnerChanged"),
      .ok (some "org.freedesktop.DBus"), .ok (some "/org/freedesktop/DBus"),
      .ok ⟨.ok (some "org.freedesktop.DBus")⟩, .error (),
      .ok ("org.example.W", some ":1.2", some ":1.8")⟩
    "org.example.W" (some ":1.2") (some ":1.8") ⟨.ok (some "org.freedesktop.DBus")⟩
    rfl rfl rfl rfl rfl rfl rfl rfl (by decide)

end ZbusProxy
